import Mathlib

/-!
Verification of the trade-app backend's ledger and accrual engine.

The Python routes (`app/routes/wallet.py`, `admin.py`, `trading.py`,
`strategies.py`) operate on PostgreSQL tables (`setup_db.py`).  We embed the
tables as Lean lists (oldest row first, matching insertion order — the SQL
reads use ORDER BY created_at DESC LIMIT 1, i.e. the last inserted row), the
DECIMAL columns as rationals, timestamps as rational epoch seconds, and each
route handler's transactional body as a function from database state to
`Except` of an error or a new state (an error response commits no writes).
The `random.random()` draws used by the accrual paths are made explicit as an
input stream `Nat → ℚ × ℚ` giving, for each simulated day, the volatility
draw and the regime-roll draw.
-/

namespace TradeApp

/-- The `transaction_type` values written to `wallet_transactions` by the
route handlers. -/
inductive TxType
  | deposit
  | withdraw
  | transfer_in
  | transfer_out
  | trade_buy
  | trade_sell
  | strategy_investment
  | strategy_unsubscription
  | admin_adjustment_positive
  | admin_adjustment_negative
  deriving DecidableEq, Repr

/-- A `wallet_transactions` row (the ledger entry). -/
structure LedgerEntry where
  user_id : Nat
  transaction_type : TxType
  amount : ℚ
  balance_before : ℚ
  balance_after : ℚ
  deriving DecidableEq, Repr

/-- A `users` row (the fields the modelled routes read). -/
structure User where
  id : Nat
  email : String
  deriving DecidableEq, Repr

/-- Status column `withdrawals.status`: created as `pending`; admin approval sets
`approved`. -/
inductive WStatus
  | pending
  | approved
  | rejected
  deriving DecidableEq, Repr

/-- A `withdrawals` row. -/
structure Withdrawal where
  id : Nat
  user_id : Nat
  amount : ℚ
  status : WStatus
  deriving DecidableEq, Repr

/-- Trade side, from the validated `side in ['buy', 'sell']` request field. -/
inductive Side
  | buy
  | sell
  deriving DecidableEq, Repr

/-- A `trades` row. -/
structure Trade where
  user_id : Nat
  asset : String
  side : Side
  size : ℚ
  price : ℚ
  total : ℚ
  deriving DecidableEq, Repr

/-- A `strategies` row (the fields read by the subscribe/unsubscribe
routes).  `expected_roi` is the daily rate in percent (for example `0.85`). -/
structure Strategy where
  id : Nat
  expected_roi : ℚ
  min_investment : ℚ
  max_investment : Option ℚ
  is_active : Bool
  deriving DecidableEq, Repr

/-- A `strategy_subscriptions` row. -/
structure Subscription where
  id : Nat
  user_id : Nat
  strategy_id : Nat
  invested_amount : ℚ
  is_active : Bool
  subscribed_at : ℚ
  deriving DecidableEq, Repr

/-- Typed failures surfaced by the modelled route handlers.  `HandlerCrash`
stands for an unhandled Python exception raised inside the handler (the
transaction rolls back and the request ends in a 401/500);
`UniqueViolation` is a database unique-constraint error surfaced as a
generic 500.  `AlreadySubscribed` is the name the spec's error taxonomy
(section 7) gives the duplicate-subscription failure; no handler in this
source ever produces it, and it appears here only so that claim C9's
original wording can be stated and compared against what the code does. -/
inductive Err
  | InvalidAmount
  | InsufficientFunds
  | RecipientNotFound
  | SameAccount
  | NotFoundOrProcessed
  | NegativeTarget
  | StrategyNotFound
  | BelowMinInvestment
  | AboveMaxInvestment
  | NoActiveSubscription
  | InsufficientLiquidity
  | HandlerCrash
  | UniqueViolation
  | AlreadySubscribed
  deriving DecidableEq, Repr

/-- The database state the modelled routes touch. -/
structure DBState where
  users : List User
  txs : List LedgerEntry
  withdrawals : List Withdrawal
  trades : List Trade
  strategies : List Strategy
  subs : List Subscription
  deriving DecidableEq, Repr

/-- The read `SELECT balance_after FROM wallet_transactions WHERE user_id = $1
ORDER BY created_at DESC LIMIT 1`, defaulting to 0 when the account has no
entries (used by every balance read in the routes). -/
def latestBalance (uid : Nat) (txs : List LedgerEntry) : ℚ :=
  (((txs.filter (fun e => e.user_id == uid)).getLast?).map
    LedgerEntry.balance_after).getD 0

/-- A successful handler commits the new state; an error response rolls the
transaction back, leaving the state unchanged. -/
def runOp (s : DBState) (r : Except Err DBState) : DBState :=
  match r with
  | .ok s2 => s2
  | .error _ => s

/-- Route `POST /deposit` (wallet.py `deposit`): reject non-positive amounts, else
append a `deposit` entry on top of the latest balance. -/
def deposit (s : DBState) (uid : Nat) (amount : ℚ) : Except Err DBState :=
  if amount ≤ 0 then .error .InvalidAmount
  else
    let bb := latestBalance uid s.txs
    .ok { s with txs := s.txs ++ [⟨uid, .deposit, amount, bb, bb + amount⟩] }

/-- Route `POST /withdraw` (wallet.py `withdraw`): check amount and latest
balance; the INSERT of the pending request then succeeds inside the
transaction, but wallet.py line 95 evaluates `g.user` — which no middleware
ever sets (`jwt_required_custom` stores only `g.user_id`) — so an
AttributeError is raised inside the transaction scope, the INSERT rolls
back, and the decorator's blanket except returns 401.  No pending
withdrawal row is ever committed by this route. -/
def requestWithdraw (s : DBState) (uid : Nat) (amount : ℚ) :
    Except Err DBState :=
  if amount ≤ 0 then .error .InvalidAmount
  else
    let bal := latestBalance uid s.txs
    if bal < amount then .error .InsufficientFunds
    else .error .HandlerCrash

/-- The signed contribution of one ledger row to the balance recomputation in
admin.py `approve_withdrawal`'s INSERT…SELECT: `deposit`, `transfer_in` and
`trade_sell` count as `+amount`; `withdraw`, `transfer_out` and `trade_buy`
count as `-amount`; every other transaction_type falls through the CASE to
NULL, which SUM ignores (contribution 0). -/
def signedByType (e : LedgerEntry) : ℚ :=
  match e.transaction_type with
  | .deposit => e.amount
  | .transfer_in => e.amount
  | .trade_sell => e.amount
  | .withdraw => -e.amount
  | .transfer_out => -e.amount
  | .trade_buy => -e.amount
  | _ => 0

/-- The aggregate `COALESCE(SUM(CASE ...), 0)` over the user's `wallet_transactions`, as used
by admin.py `approve_withdrawal` to recompute the balance. -/
def typeSum (uid : Nat) (txs : List LedgerEntry) : ℚ :=
  ((txs.filter (fun e => e.user_id == uid)).map signedByType).sum

/-- Route `POST /admin/withdrawals/<id>/approve` (admin.py `approve_withdrawal`):
look up the request by id with `status = 'pending'` (404 otherwise), mark it
approved, and insert a `withdraw` entry whose `amount` is the (positive)
requested amount, whose `balance_before` is the `typeSum` recomputation and
whose `balance_after` is that sum minus the amount.  No balance check is
performed at approval time. -/
def approveWithdrawal (s : DBState) (wid : Nat) : Except Err DBState :=
  match s.withdrawals.find?
      (fun w => w.id == wid && w.status == WStatus.pending) with
  | none => .error .NotFoundOrProcessed
  | some w =>
    let bb := typeSum w.user_id s.txs
    .ok { s with
      withdrawals := s.withdrawals.map (fun w0 =>
        if w0.id == wid then { w0 with status := .approved } else w0),
      txs := s.txs ++ [⟨w.user_id, .withdraw, w.amount, bb, bb - w.amount⟩] }

/-- Route `POST /admin/users/<id>/balance` (admin.py `update_user_balance`): reject
a negative target; append a positive/negative `admin_adjustment` entry whose
`amount` column stores `abs(adjustment)` and whose `balance_after` is the
target; no entry when the adjustment is zero. -/
def updateUserBalance (s : DBState) (uid : Nat) (newBalance : ℚ) :
    Except Err DBState :=
  if newBalance < 0 then .error .NegativeTarget
  else
    let cur := latestBalance uid s.txs
    let adjustment := newBalance - cur
    if adjustment = 0 then .ok s
    else
      let ty := if 0 < adjustment then TxType.admin_adjustment_positive
                else TxType.admin_adjustment_negative
      .ok { s with txs := s.txs ++ [⟨uid, ty, |adjustment|, cur, newBalance⟩] }

/-- Route `POST /transfer` (wallet.py `transfer`): validate the amount, resolve the
recipient by email, forbid self-transfer, check the sender's latest balance,
then append a `transfer_out` entry (signed negative amount) on the sender and
a `transfer_in` entry on the recipient, reading the recipient's latest
balance after the first insert — both inside one transaction. -/
def transfer (s : DBState) (uid : Nat) (recipientEmail : String) (amount : ℚ) :
    Except Err DBState :=
  if amount ≤ 0 then .error .InvalidAmount
  else
    match s.users.find? (fun u => u.email == recipientEmail) with
    | none => .error .RecipientNotFound
    | some r =>
      if r.id == uid then .error .SameAccount
      else
        let sb := latestBalance uid s.txs
        if sb < amount then .error .InsufficientFunds
        else
          let outE : LedgerEntry := ⟨uid, .transfer_out, -amount, sb, sb - amount⟩
          let txs1 := s.txs ++ [outE]
          let rb := latestBalance r.id txs1
          .ok { s with txs := txs1 ++ [⟨r.id, .transfer_in, amount, rb, rb + amount⟩] }

/-- Route `POST /trade` (trading.py `place_trade`): validate the size; for a
buy, check the latest balance against `total = size * price` (400 before any
write on failure); for a sell, check the pooled historical buy size for the
asset.  When the checks pass, the handler inserts the wallet entry and the
`trades` row, but then — still inside `conn.transaction()` — it evaluates
`economic_calculator.chinese_calc` (an attribute `AdvancedEconomicCalculator`
never defines) and calls `TradeMetrics` with 9 of its 11 required dataclass
fields (`behavioral_bias` and `transaction_costs` missing), so an
AttributeError/TypeError is always raised, the transaction rolls back both
inserts, and the decorator's blanket except returns 401.  No trade ever
commits through this route.  The market `price` is fetched before the
transaction and is a parameter here. -/
def placeTrade (s : DBState) (uid : Nat) (asset : String) (side : Side)
    (size price : ℚ) : Except Err DBState :=
  if size ≤ 0 then .error .InvalidAmount
  else
    let total := size * price
    match side with
    | .buy =>
      let bal := latestBalance uid s.txs
      if bal < total then .error .InsufficientFunds
      else .error .HandlerCrash
    | .sell =>
      let buyVol := ((s.trades.filter
        (fun t => t.asset == asset && t.side == Side.buy)).map Trade.size).sum
      if buyVol < size then .error .InsufficientLiquidity
      else .error .HandlerCrash

/-- Python `int()` applied to a rational: truncation toward zero. -/
def pyTrunc (x : ℚ) : Int :=
  if 0 ≤ x then ⌊x⌋ else ⌈x⌉

/-- The draw `volatility_factor = 0.8 + (random.random() * 0.4)` from the accrual
loops in strategies.py. -/
def volatilityFactor (r : ℚ) : ℚ :=
  4 / 5 + r * (2 / 5)

/-- The market-regime multiplier drawn in the accrual loops: a regime roll
below 0.1 gives 0.7 (bear), below 0.25 gives 1.3 (volatile), below 0.6 gives
1.1 (bull), else 1.0. -/
def regimeFactor (r : ℚ) : ℚ :=
  if r < 1 / 10 then 7 / 10
  else if r < 1 / 4 then 13 / 10
  else if r < 3 / 5 then 11 / 10
  else 1

/-- The synthetic `daily_returns` list built by the accrual loops:
`daily_roi_rate * volatility_factor * regime_factor` for each of the first
`n` days, with the day's two random draws taken from the stream. -/
def dailyReturns (rate : ℚ) (n : Nat) (rand : Nat → ℚ × ℚ) : List ℚ :=
  (List.range n).map
    (fun d => rate * volatilityFactor (rand d).1 * regimeFactor (rand d).2)

/-- The `total_return` field of
`calculate_strategy_performance_economics` (pandl_calculator.py): the plain
sum of the daily returns (`total_return = sum(returns)`); it is the only
field of the returned `StrategyPerformance` that the earnings computation
consumes. -/
def strategyTotalReturn (returns : List ℚ) : ℚ :=
  returns.sum

/-- The clamp `days_active = max(1, int(days_elapsed))` from strategies.py
`unsubscribe_from_strategy`. -/
def daysActive (daysElapsed : ℚ) : Nat :=
  (max 1 (pyTrunc daysElapsed)).toNat

/-- The earnings computed by `unsubscribe_from_strategy`:
`total_earnings = invested_amount * performance.total_return`, then the floor
guarantee `max(total_earnings, invested_amount * 0.0001 * days_active)`. -/
def unsubEarnings (invested rate daysElapsed : ℚ) (rand : Nat → ℚ × ℚ) : ℚ :=
  let n := daysActive daysElapsed
  let total := strategyTotalReturn (dailyReturns rate n rand)
  max (invested * total) (invested * (1 / 10000) * (n : ℚ))

/-- The earnings computed by the read path `get_my_strategies`:
`full_days_active = int(days_elapsed)`, with `days_active` forced to 1 only
when it is exactly 0, then the same sum-of-daily-returns formula and floor
guarantee.  When `int(days_elapsed) <= -1`, `days_active` stays negative,
`daily_returns` is built empty, and `calculate_strategy_performance_economics`
executes `StrategyPerformance(*[0] * 20)` — 20 arguments for a 17-field
dataclass — raising TypeError, which the route's except turns into a 500
with no earnings computed; that outcome is `none` here. -/
def myStrategiesEarnings (invested rate daysElapsed : ℚ)
    (rand : Nat → ℚ × ℚ) : Option ℚ :=
  let fullDays := pyTrunc daysElapsed
  let d : Int := if fullDays = 0 then 1 else fullDays
  if d ≤ 0 then none
  else
    let n := d.toNat
    let total := strategyTotalReturn (dailyReturns rate n rand)
    some (max (invested * total) (invested * (1 / 10000) * (n : ℚ)))

/-- Route `POST /strategies/<id>/subscribe` (strategies.py
`subscribe_to_strategy`): validate the amount, look up the active strategy,
check the min/max investment limits (the max check is skipped for a NULL or
zero `max_investment`, Python truthiness), check the latest balance, then
insert the subscription row and append a `strategy_investment` entry with
signed negative amount.  The handler itself performs no duplicate check, but
the schema (app/__init__.py `create_tables`) declares
`UNIQUE(user_id, strategy_id)` on `strategy_subscriptions`, so when any row
for that user/strategy pair exists — active or not — the subscription INSERT
raises a unique violation, the route's except returns a 500, and neither the
row nor the ledger entry is written (the wallet INSERT is never reached). -/
def subscribeToStrategy (s : DBState) (uid sid : Nat) (invested now : ℚ) :
    Except Err DBState :=
  if invested ≤ 0 then .error .InvalidAmount
  else
    match s.strategies.find? (fun st => st.id == sid && st.is_active) with
    | none => .error .StrategyNotFound
    | some strat =>
      if invested < strat.min_investment then .error .BelowMinInvestment
      else if (match strat.max_investment with
               | none => false
               | some m => !(m == 0) && decide (m < invested)) then
        .error .AboveMaxInvestment
      else
        let bal := latestBalance uid s.txs
        if bal < invested then .error .InsufficientFunds
        else if s.subs.any (fun s0 =>
            s0.user_id == uid && s0.strategy_id == sid) then
          .error .UniqueViolation
        else
          .ok { s with
            subs := s.subs ++
              [⟨s.subs.length + 1, uid, sid, invested, true, now⟩],
            txs := s.txs ++
              [⟨uid, .strategy_investment, -invested, bal, bal - invested⟩] }

/-- Route `POST /strategies/<id>/unsubscribe` (strategies.py
`unsubscribe_from_strategy`): find the caller's active subscription joined
with its strategy row (404 otherwise), compute
`days_elapsed = (now - subscribed_at) / 86400`, run the accrual loop with
`daily_roi_rate = expected_roi / 100`, mark the subscription inactive, and
append one `strategy_unsubscription` entry crediting
`invested_amount + total_earnings` on top of the latest balance. -/
def unsubscribeFromStrategy (s : DBState) (uid sid : Nat) (now : ℚ)
    (rand : Nat → ℚ × ℚ) : Except Err DBState :=
  match s.subs.find? (fun ss =>
      ss.user_id == uid && ss.strategy_id == sid && ss.is_active) with
  | none => .error .NoActiveSubscription
  | some sub =>
    match s.strategies.find? (fun st => st.id == sub.strategy_id) with
    | none => .error .NoActiveSubscription
    | some strat =>
      let daysElapsed := (now - sub.subscribed_at) / 86400
      let rate := strat.expected_roi / 100
      let earnings := unsubEarnings sub.invested_amount rate daysElapsed rand
      let returnAmount := sub.invested_amount + earnings
      let bb := latestBalance uid s.txs
      .ok { s with
        subs := s.subs.map (fun s0 =>
          if s0.id == sub.id then { s0 with is_active := false } else s0),
        txs := s.txs ++
          [⟨uid, .strategy_unsubscription, returnAmount, bb, bb + returnAmount⟩] }

/-- The typed failure of a handler result, if any. -/
def errOf (r : Except Err DBState) : Option Err :=
  match r with
  | .ok _ => none
  | .error e => some e

/-- The entries of one account, in ledger order (`history(account)`). -/
def entriesOf (uid : Nat) (txs : List LedgerEntry) : List LedgerEntry :=
  txs.filter (fun e => e.user_id == uid)

/-- Spec chain invariant, checked entry by entry: each entry's
`balance_before` equals the running balance (starting from 0) and its
`balance_after` equals `balance_before + amount`. -/
def chainFromB : ℚ → List LedgerEntry → Bool
  | _, [] => true
  | prev, e :: rest =>
      decide (e.balance_before = prev) &&
      decide (e.balance_after = e.balance_before + e.amount) &&
      chainFromB e.balance_after rest

/-- Spec chain invariant for one account's full history. -/
def ledgerChainOk (uid : Nat) (txs : List LedgerEntry) : Bool :=
  chainFromB 0 (entriesOf uid txs)

/-- The sum of the `amount` column over one account's full history. -/
def historyAmountSum (uid : Nat) (txs : List LedgerEntry) : ℚ :=
  ((entriesOf uid txs).map LedgerEntry.amount).sum

/-- Total system balance: the latest balance of every account. -/
def totalBalance (s : DBState) : ℚ :=
  (s.users.map (fun u => latestBalance u.id s.txs)).sum

/-- The neutral random stream: volatility draw 1/2 (so
`volatility_factor = 1`) and regime roll 7/10 (so `regime_factor = 1`) every
day — the accrual loop with variance disabled. -/
def detRand : Nat → ℚ × ℚ :=
  fun _ => (1 / 2, 7 / 10)

/-- Two registered users with no rows anywhere else. -/
def baseState : DBState :=
  ⟨[⟨1, "alice"⟩, ⟨2, "bob"⟩], [], [], [], [], []⟩

/-- The per-kind signed view of the `amount` column: admin adjustment
entries store the magnitude `abs(adjustment)` with the direction encoded in
the transaction type, so `admin_adjustment_negative` counts as `-amount`;
every other kind stores its amount already signed. -/
def signedAmount (e : LedgerEntry) : ℚ :=
  match e.transaction_type with
  | .admin_adjustment_negative => -e.amount
  | _ => e.amount

/-- Amended chain invariant: each entry's `balance_before` continues the
running balance (0 before the first entry) and `balance_after` moves it by
the per-kind signed amount. -/
def chainAmendedFromB : ℚ → List LedgerEntry → Bool
  | _, [] => true
  | prev, e :: rest =>
      decide (e.balance_before = prev) &&
      decide (e.balance_after = e.balance_before + signedAmount e) &&
      chainAmendedFromB e.balance_after rest

/-- Amended chain invariant for one account's full history. -/
def ledgerChainAmendedOk (uid : Nat) (txs : List LedgerEntry) : Bool :=
  chainAmendedFromB 0 (entriesOf uid txs)

/-- The first entry of an account's history, if any, has `balance_before`
0. -/
def firstBalanceOk (uid : Nat) (txs : List LedgerEntry) : Bool :=
  match (entriesOf uid txs).head? with
  | none => true
  | some e => decide (e.balance_before = 0)

/-- Amended replay property for one account: summing the per-kind signed
amounts over the full history gives the latest balance, and the first
entry's `balance_before` is 0. -/
def replayOk (uid : Nat) (txs : List LedgerEntry) : Bool :=
  decide (((entriesOf uid txs).map signedAmount).sum =
    latestBalance uid txs) &&
  firstBalanceOk uid txs

/-- An appended ledger entry is well-formed when its `balance_before` is the
account's latest balance at append time and its per-kind signed amount is
exactly the balance delta. -/
def goodAppend (txs : List LedgerEntry) (e : LedgerEntry) : Prop :=
  e.balance_before = latestBalance e.user_id txs ∧
  signedAmount e = e.balance_after - e.balance_before

/-- Scenario D (for duplicate subscription): user 1 holds 1000 after a
deposit and already has a subscription row for strategy 5 (min investment
100, no max); they try to subscribe to strategy 5 again for 200. -/
def scenD : DBState :=
  ⟨[⟨1, "alice"⟩, ⟨2, "bob"⟩],
   [⟨1, .deposit, 1000, 0, 1000⟩],
   [], [],
   [⟨5, 17 / 20, 100, none, true⟩],
   [⟨1, 1, 5, 300, true, 0⟩]⟩

def scenD2 : DBState := runOp scenD (subscribeToStrategy scenD 1 5 200 7777)

/-- Scenario E (for the trading flow): user 1 deposits 1000 and then
attempts to buy 0.01 BTC at price 45000 (total 450). -/
def scenE1 : DBState := runOp baseState (deposit baseState 1 1000)

/-- Scenario F (for the ledger invariants): user 1 deposits 1000, then the
admin sets the balance to 600, producing an `admin_adjustment_negative`
entry that stores the magnitude 400 while the balance decreases. -/
def scenF1 : DBState := runOp baseState (deposit baseState 1 1000)

def scenF2 : DBState := runOp scenF1 (updateUserBalance scenF1 1 600)

/-- A database state holding a 100 deposit and two pending 100-withdrawal
requests for user 1.  This source's own withdraw route can never commit a
pending request (it always crashes and rolls back), so these rows are
posited as pre-existing database contents — left by an earlier revision or
inserted directly — which is the situation the approval handler is written
against. -/
def wdemo2 : DBState :=
  ⟨[⟨1, "alice"⟩], [⟨1, .deposit, 100, 0, 100⟩],
   [⟨1, 1, 100, .pending⟩, ⟨2, 1, 100, .pending⟩], [], [], []⟩

def scenW1 : DBState := runOp wdemo2 (approveWithdrawal wdemo2 1)

def scenW2 : DBState := runOp scenW1 (approveWithdrawal scenW1 2)

/-- C1 counterexample: the strict chain invariant
`balance_after = balance_before + amount` fails on the code.  In scenario F
the admin adjustment down to 600 stores the magnitude 400 in `amount` (the
sign lives in the transaction type), so the entry has
`balance_after = 600 ≠ 1000 + 400`. -/
theorem c1_counterexample_admin_adjustment_breaks_chain :
    scenF2.txs =
      [⟨1, .deposit, 1000, 0, 1000⟩,
       ⟨1, .admin_adjustment_negative, 400, 1000, 600⟩] ∧
    ledgerChainOk 1 scenF2.txs = false := by
  norm_num [scenF2, scenF1, baseState, runOp, deposit, updateUserBalance,
    latestBalance, ledgerChainOk, chainFromB, entriesOf, abs_of_neg]

/-- C2 counterexample: the plain replay sum fails on the code.  In scenario
F the history amounts are [+1000, +400] (the admin adjustment magnitude is
stored unsigned), summing to 1400, while the last entry's `balance_after`
is 600. -/
theorem c2_counterexample_admin_adjustment_breaks_replay :
    scenF2.txs =
      [⟨1, .deposit, 1000, 0, 1000⟩,
       ⟨1, .admin_adjustment_negative, 400, 1000, 600⟩] ∧
    ¬ historyAmountSum 1 scenF2.txs = latestBalance 1 scenF2.txs := by
  norm_num [scenF2, scenF1, baseState, runOp, deposit, updateUserBalance,
    latestBalance, historyAmountSum, entriesOf, abs_of_neg]

/-- C4 counterexample: on the database state `wdemo2` (balance 100 and two
pre-existing pending 100-withdrawal requests), the first approval succeeds
and brings the latest balance to 0; approving the second — whose amount 100
exceeds the latest balance 0 — does not fail with InsufficientFunds: it
succeeds and drives the balance to -100. -/
theorem c4_counterexample_no_balance_recheck :
    (approveWithdrawal wdemo2 1).toOption = some scenW1 ∧
    latestBalance 1 scenW1.txs = 0 ∧
    (approveWithdrawal scenW1 2).toOption = some scenW2 ∧
    latestBalance 1 scenW2.txs = -100 := by
  norm_num [scenW2, scenW1, wdemo2, runOp, approveWithdrawal, latestBalance,
    typeSum, signedByType, Except.toOption]

/-- C8 counterexample: a subscription with `days_elapsed = -1/2` (subscribed
in the future) and variance disabled earns one full day of accrual,
`1000 * 0.0085 = 8.5`, not 0, on the close path. -/
theorem c8_counterexample_negative_days_accrue :
    unsubEarnings 1000 (17 / 2000) (-(1 / 2)) detRand = 17 / 2 ∧
    ¬ unsubEarnings 1000 (17 / 2000) (-(1 / 2)) detRand = 0 := by
  have hc : ⌈(-(1 / 2) : ℚ)⌉ = 0 := by norm_num
  have h : daysActive (-(1 / 2) : ℚ) = 1 := by
    norm_num [daysActive, pyTrunc, hc]
  simp only [unsubEarnings, h, dailyReturns, strategyTotalReturn, detRand]
  norm_num [volatilityFactor, regimeFactor, List.range_succ]

/-- C9 counterexample: with a subscription to strategy 5 already present,
subscribing again does fail and writes nothing — but the failure is the
database unique-constraint violation surfaced as a generic 500, not the
typed AlreadySubscribed failure the claim names. -/
theorem c9_counterexample_unique_violation_not_typed :
    errOf (subscribeToStrategy scenD 1 5 200 7777) = some .UniqueViolation ∧
    ¬ errOf (subscribeToStrategy scenD 1 5 200 7777) =
      some .AlreadySubscribed ∧
    scenD2 = scenD := by
  norm_num [scenD2, scenD, subscribeToStrategy, latestBalance, runOp, errOf]
  decide

/-- C10: the deposit leaves balance 1000, but the scenario's buy can never
succeed — trading.py `place_trade` always raises inside its transaction
(`economic_calculator.chinese_calc` is undefined and the `TradeMetrics`
call is missing two required fields), rolling back both inserts — so the
balance stays 1000, no Trade row is created, and the follow-up total-600
buy also crashes (its balance check passes at 1000) rather than failing
with InsufficientFunds at balance 550. -/
theorem c10_trade_buy_always_crashes :
    latestBalance 1 scenE1.txs = 1000 ∧
    errOf (placeTrade scenE1 1 "BTC" .buy (1 / 100) 45000) =
      some .HandlerCrash ∧
    runOp scenE1 (placeTrade scenE1 1 "BTC" .buy (1 / 100) 45000) = scenE1 ∧
    scenE1.trades = [] ∧
    errOf (placeTrade scenE1 1 "BTC" .buy (1 / 75) 45000) =
      some .HandlerCrash := by
  norm_num [scenE1, baseState, runOp, deposit, placeTrade, latestBalance,
    errOf]

/-- C3: for a subscription of 1000 at daily rate 0.0085 (strategy
`expected_roi` 0.85 percent), after exactly 10.0 elapsed days with the
variance factors neutral, both the read path and the close path compute
earnings of exactly 85, and unsubscribing (here from any prior ledger
history `txs`) appends exactly one `strategy_unsubscription` entry crediting
1085 with `balance_after = balance_before + 1085`, marking the subscription
inactive. -/
theorem c3_ten_day_accrual_and_unsubscribe (txs : List LedgerEntry) :
    myStrategiesEarnings 1000 (17 / 2000) 10 detRand = some 85 ∧
    unsubEarnings 1000 (17 / 2000) 10 detRand = 85 ∧
    unsubscribeFromStrategy
        ⟨[⟨1, "alice"⟩], txs, [], [], [⟨5, 17 / 20, 1000, none, true⟩],
         [⟨1, 1, 5, 1000, true, 0⟩]⟩ 1 5 864000 detRand =
      .ok ⟨[⟨1, "alice"⟩],
        txs ++ [⟨1, .strategy_unsubscription, 1085, latestBalance 1 txs,
                  latestBalance 1 txs + 1085⟩],
        [], [], [⟨5, 17 / 20, 1000, none, true⟩],
        [⟨1, 1, 5, 1000, false, 0⟩]⟩ := by
  have hsum : strategyTotalReturn (dailyReturns (17 / 2000) 10 detRand) =
      17 / 200 := by
    norm_num [strategyTotalReturn, dailyReturns, detRand, volatilityFactor,
      regimeFactor, List.range_succ]
  have htn : Int.toNat 10 = 10 := by decide
  have h10 : daysActive (10 : ℚ) = 10 := by
    norm_num [daysActive, pyTrunc, htn]
  have hu : unsubEarnings 1000 (17 / 2000) 10 detRand = 85 := by
    simp only [unsubEarnings, h10, hsum]
    norm_num
  refine ⟨?_, hu, ?_⟩
  · have hm : pyTrunc (10 : ℚ) = 10 := by norm_num [pyTrunc]
    simp only [myStrategiesEarnings, hm, htn, hsum]
    norm_num [hsum, htn]
  · simp only [unsubscribeFromStrategy, List.find?]
    norm_num [hu, latestBalance]

/-- A user with a 100 deposit and one pending 100-withdrawal request. -/
def wdemo : DBState :=
  ⟨[⟨1, "alice"⟩], [⟨1, .deposit, 100, 0, 100⟩], [⟨1, 1, 100, .pending⟩],
   [], [], []⟩

theorem daysActive_of_nonpos {x : ℚ} (hx : x ≤ 0) : daysActive x = 1 := by
  unfold daysActive pyTrunc
  by_cases h : 0 ≤ x
  · have hx0 : x = 0 := le_antisymm hx h
    simp [hx0]
  · rw [if_neg h]
    have hc : ⌈x⌉ ≤ 0 := Int.ceil_le.mpr (by exact_mod_cast hx)
    rw [max_eq_left (le_trans hc (by norm_num))]
    rfl

/-- C4 (amended): withdrawal approval succeeds exactly when a pending
request with the given id exists — the balance is never re-checked.  On
success exactly one `withdraw` entry is appended, with `amount` the
requested amount and `balance_after = balance_before - amount`, the
`balance_before` being the type-filtered sum recomputation; approving a
non-pending or unknown request fails with the not-found/already-processed
error and leaves the state — hence every balance — unchanged. -/
theorem c4_amended_approval_requires_only_pending (s : DBState) (wid : Nat) :
    ((∃ w ∈ s.withdrawals, w.id = wid ∧ w.status = WStatus.pending) →
      ∃ w, w ∈ s.withdrawals ∧ w.id = wid ∧ w.status = WStatus.pending ∧
        approveWithdrawal s wid = .ok { s with
          withdrawals := s.withdrawals.map (fun w0 =>
            if w0.id == wid then { w0 with status := .approved } else w0),
          txs := s.txs ++ [⟨w.user_id, .withdraw, w.amount,
            typeSum w.user_id s.txs, typeSum w.user_id s.txs - w.amount⟩] }) ∧
    ((¬ ∃ w ∈ s.withdrawals, w.id = wid ∧ w.status = WStatus.pending) →
      approveWithdrawal s wid = .error .NotFoundOrProcessed ∧
      runOp s (approveWithdrawal s wid) = s) := by
  constructor
  · rintro ⟨w, hw, hid, hst⟩
    cases hfind : s.withdrawals.find?
        (fun w0 => w0.id == wid && w0.status == WStatus.pending) with
    | none =>
      exfalso
      have hnone := List.find?_eq_none.mp hfind w hw
      simp [hid, hst] at hnone
    | some w2 =>
      have hpred := List.find?_some hfind
      simp only [Bool.and_eq_true, beq_iff_eq] at hpred
      refine ⟨w2, List.mem_of_find?_eq_some hfind, hpred.1, hpred.2, ?_⟩
      unfold approveWithdrawal
      rw [hfind]
  · intro hno
    cases hfind : s.withdrawals.find?
        (fun w0 => w0.id == wid && w0.status == WStatus.pending) with
    | some w2 =>
      exfalso
      have hpred := List.find?_some hfind
      simp only [Bool.and_eq_true, beq_iff_eq] at hpred
      exact hno ⟨w2, List.mem_of_find?_eq_some hfind, hpred.1, hpred.2⟩
    | none =>
      have hres : approveWithdrawal s wid = .error .NotFoundOrProcessed := by
        unfold approveWithdrawal
        rw [hfind]
      exact ⟨hres, by rw [hres]; rfl⟩

/-- Witness for C4 (amended): on the concrete state `wdemo` the pending
request 1 is approved, appending the withdraw entry computed from the
type-filtered sum. -/
theorem c4_amended_witness :
    ∃ w, w ∈ wdemo.withdrawals ∧ w.id = 1 ∧ w.status = WStatus.pending ∧
      approveWithdrawal wdemo 1 = .ok { wdemo with
        withdrawals := wdemo.withdrawals.map (fun w0 =>
          if w0.id == 1 then { w0 with status := .approved } else w0),
        txs := wdemo.txs ++ [⟨w.user_id, .withdraw, w.amount,
          typeSum w.user_id wdemo.txs, typeSum w.user_id wdemo.txs - w.amount⟩] } :=
  (c4_amended_approval_requires_only_pending wdemo 1).1
    ⟨⟨1, 1, 100, .pending⟩, by simp [wdemo], rfl, rfl⟩

/-- C8 (amended): for `days_elapsed ≤ 0` the engine never computes earnings
of 0.  The close path clamps `days_active` to `max(1, int(days_elapsed)) = 1`
and computes one full day of earnings — the same value as at
`days_elapsed = 0`, and at least `invested * 0.0001`, hence positive for
positive principal.  The read path does the same while `int(days_elapsed)`
is 0 (that is, for `-1 < days_elapsed ≤ 0`), and for `days_elapsed ≤ -1` it
crashes with a 500 (the empty daily-returns list reaches
`StrategyPerformance(*[0] * 20)`) instead of computing any earnings. -/
theorem c8_amended_nonpositive_days_one_day_or_crash (invested rate dx : ℚ)
    (rand : Nat → ℚ × ℚ) (hdx : dx ≤ 0) :
    (unsubEarnings invested rate dx rand =
        unsubEarnings invested rate 0 rand ∧
     unsubEarnings invested rate dx rand =
       max (invested *
             (rate * volatilityFactor (rand 0).1 * regimeFactor (rand 0).2))
         (invested * (1 / 10000)) ∧
     (0 < invested → 0 < unsubEarnings invested rate dx rand)) ∧
    (-1 < dx →
      myStrategiesEarnings invested rate dx rand =
        some (unsubEarnings invested rate dx rand)) ∧
    (dx ≤ -1 → myStrategiesEarnings invested rate dx rand = none) := by
  have h1 : daysActive dx = 1 := daysActive_of_nonpos hdx
  have h0 : daysActive (0 : ℚ) = 1 := daysActive_of_nonpos le_rfl
  have he : unsubEarnings invested rate dx rand =
      max (invested *
            (rate * volatilityFactor (rand 0).1 * regimeFactor (rand 0).2))
        (invested * (1 / 10000)) := by
    simp only [unsubEarnings, h1, dailyReturns, strategyTotalReturn,
      List.range_succ, List.range_zero, List.nil_append, List.map_cons,
      List.map_nil, List.sum_cons, List.sum_nil, add_zero, Nat.cast_one,
      mul_one, mul_assoc]
  have he0 : unsubEarnings invested rate 0 rand =
      max (invested *
            (rate * volatilityFactor (rand 0).1 * regimeFactor (rand 0).2))
        (invested * (1 / 10000)) := by
    simp only [unsubEarnings, h0, dailyReturns, strategyTotalReturn,
      List.range_succ, List.range_zero, List.nil_append, List.map_cons,
      List.map_nil, List.sum_cons, List.sum_nil, add_zero, Nat.cast_one,
      mul_one, mul_assoc]
  refine ⟨⟨he.trans he0.symm, he, fun hinv => ?_⟩, ?_, ?_⟩
  · rw [he]
    exact lt_max_of_lt_right (by positivity)
  · intro hgt
    have hp : pyTrunc dx = 0 := by
      unfold pyTrunc
      by_cases hge : 0 ≤ dx
      · rw [if_pos hge]
        have hz : dx = 0 := le_antisymm hdx hge
        simp [hz]
      · rw [if_neg hge]
        have hc1 : ⌈dx⌉ ≤ 0 := Int.ceil_le.mpr (by exact_mod_cast hdx)
        have hc2 : (-1 : ℤ) < ⌈dx⌉ := by
          rw [Int.lt_ceil]
          exact_mod_cast hgt
        omega
    rw [he]
    simp only [myStrategiesEarnings, hp]
    norm_num [strategyTotalReturn, dailyReturns, List.range_succ,
      List.range_zero, mul_one, mul_assoc]
  · intro hle
    have hp : pyTrunc dx = ⌈dx⌉ := by
      unfold pyTrunc
      rw [if_neg (by linarith : ¬ (0 : ℚ) ≤ dx)]
    have hc : ⌈dx⌉ ≤ -1 := Int.ceil_le.mpr (by exact_mod_cast hle)
    simp only [myStrategiesEarnings, hp]
    rw [if_neg (by omega : ¬ ⌈dx⌉ = 0)]
    rw [if_pos (by omega : ⌈dx⌉ ≤ 0)]

/-- Witness for C8 (amended): at `days_elapsed = -3` with principal 1000,
rate 0.0085 and neutral variance draws: the close path earns one positive
day and the read path crashes. -/
theorem c8_amended_witness :
    ((unsubEarnings 1000 (17 / 2000) (-3) detRand =
        unsubEarnings 1000 (17 / 2000) 0 detRand ∧
      unsubEarnings 1000 (17 / 2000) (-3) detRand =
        max (1000 *
              (17 / 2000 * volatilityFactor (detRand 0).1 *
                regimeFactor (detRand 0).2))
          (1000 * (1 / 10000)) ∧
      ((0 : ℚ) < 1000 → 0 < unsubEarnings 1000 (17 / 2000) (-3) detRand)) ∧
     ((-1 : ℚ) < -3 →
       myStrategiesEarnings 1000 (17 / 2000) (-3) detRand =
         some (unsubEarnings 1000 (17 / 2000) (-3) detRand)) ∧
     ((-3 : ℚ) ≤ -1 →
       myStrategiesEarnings 1000 (17 / 2000) (-3) detRand = none)) :=
  c8_amended_nonpositive_days_one_day_or_crash 1000 (17 / 2000) (-3) detRand
    (by norm_num)

/-- C9 (amended): subscribing to a strategy for which any subscription row
already exists — active or not, since the schema's
`UNIQUE(user_id, strategy_id)` constraint ignores activity — never commits:
the call leaves the state unchanged (no second subscription row, no ledger
entry) and never returns success; and whenever the amount, strategy, limit
and balance checks all pass, the failure is precisely the unique-violation
error surfaced as a 500. -/
theorem c9_amended_duplicate_subscription_never_commits (s : DBState)
    (uid sid : Nat) (inv now : ℚ) (sub : Subscription)
    (hsub : sub ∈ s.subs) (hsu : sub.user_id = uid)
    (hss : sub.strategy_id = sid) :
    runOp s (subscribeToStrategy s uid sid inv now) = s ∧
    (∀ s2, ¬ subscribeToStrategy s uid sid inv now = .ok s2) ∧
    (∀ strat, s.strategies.find? (fun st => st.id == sid && st.is_active) =
        some strat →
      ¬ inv ≤ 0 → ¬ inv < strat.min_investment →
      (match strat.max_investment with
       | none => false
       | some m => !(m == 0) && decide (m < inv)) = false →
      ¬ latestBalance uid s.txs < inv →
      subscribeToStrategy s uid sid inv now = .error .UniqueViolation) := by
  have hdup : (s.subs.any (fun s0 =>
      s0.user_id == uid && s0.strategy_id == sid)) = true :=
    List.any_eq_true.mpr ⟨sub, hsub, by simp [hsu, hss]⟩
  have herr : ∃ e2, subscribeToStrategy s uid sid inv now = .error e2 := by
    by_cases h0 : inv ≤ 0
    · exact ⟨_, by unfold subscribeToStrategy; rw [if_pos h0]⟩
    · cases hfind : s.strategies.find?
          (fun st => st.id == sid && st.is_active) with
      | none =>
        refine ⟨.StrategyNotFound, ?_⟩
        unfold subscribeToStrategy
        rw [if_neg h0]
        simp only [hfind]
      | some strat =>
        by_cases hmin : inv < strat.min_investment
        · refine ⟨.BelowMinInvestment, ?_⟩
          unfold subscribeToStrategy
          rw [if_neg h0]
          simp only [hfind]
          rw [if_pos hmin]
        · by_cases hmax : (match strat.max_investment with
              | none => false
              | some m => !(m == 0) && decide (m < inv)) = true
          · refine ⟨.AboveMaxInvestment, ?_⟩
            unfold subscribeToStrategy
            rw [if_neg h0]
            simp only [hfind]
            rw [if_neg hmin, if_pos hmax]
          · by_cases hbal : latestBalance uid s.txs < inv
            · refine ⟨.InsufficientFunds, ?_⟩
              unfold subscribeToStrategy
              rw [if_neg h0]
              simp only [hfind]
              rw [if_neg hmin, if_neg hmax, if_pos hbal]
            · refine ⟨.UniqueViolation, ?_⟩
              unfold subscribeToStrategy
              rw [if_neg h0]
              simp only [hfind]
              rw [if_neg hmin, if_neg hmax, if_neg hbal, if_pos hdup]
  obtain ⟨e2, he2⟩ := herr
  refine ⟨by rw [he2]; rfl, ?_, ?_⟩
  · intro s2 hcon
    rw [he2] at hcon
    exact Except.noConfusion hcon
  · intro strat hfind h0 hmin hmax hbal
    unfold subscribeToStrategy
    rw [if_neg h0]
    simp only [hfind]
    rw [if_neg hmin, if_neg (by simp [hmax]), if_neg hbal, if_pos hdup]

/-- Witness for C9 (amended): on the concrete state `scenD`, which already
holds a subscription to strategy 5, a fresh subscribe call for 200 changes
nothing, never succeeds, and fails with the unique-violation error once all
checks pass. -/
theorem c9_amended_witness :
    runOp scenD (subscribeToStrategy scenD 1 5 200 7777) = scenD ∧
    (∀ s2, ¬ subscribeToStrategy scenD 1 5 200 7777 = .ok s2) ∧
    (∀ strat, scenD.strategies.find?
        (fun st => st.id == 5 && st.is_active) = some strat →
      ¬ (200 : ℚ) ≤ 0 → ¬ (200 : ℚ) < strat.min_investment →
      (match strat.max_investment with
       | none => false
       | some m => !(m == 0) && decide (m < (200 : ℚ))) = false →
      ¬ latestBalance 1 scenD.txs < 200 →
      subscribeToStrategy scenD 1 5 200 7777 = .error .UniqueViolation) :=
  c9_amended_duplicate_subscription_never_commits scenD 1 5 200 7777
    ⟨1, 1, 5, 300, true, 0⟩ (by simp [scenD]) rfl rfl

theorem latestBalance_append (uid : Nat) (txs : List LedgerEntry)
    (e : LedgerEntry) :
    latestBalance uid (txs ++ [e]) =
      if e.user_id = uid then e.balance_after else latestBalance uid txs := by
  unfold latestBalance
  rw [List.filter_append]
  by_cases h : e.user_id = uid
  · have hb : (e.user_id == uid) = true := by simp [h]
    simp [List.filter, hb, h]
  · have hb : (e.user_id == uid) = false := by simp [h]
    simp [List.filter, hb, h]

theorem sum_map_add_q {α : Type} (l : List α) (f g : α → ℚ) :
    (l.map (fun x => f x + g x)).sum = (l.map f).sum + (l.map g).sum := by
  induction l with
  | nil => simp
  | cons x xs ih =>
    simp only [List.map_cons, List.sum_cons, ih]
    ring

theorem sum_map_ite_id_zero (l : List User) (a : Nat) (c : ℚ)
    (ha : ∀ u ∈ l, u.id ≠ a) :
    (l.map (fun u => if u.id = a then c else 0)).sum = 0 := by
  induction l with
  | nil => simp
  | cons x xs ih =>
    simp only [List.map_cons, List.sum_cons]
    rw [if_neg (ha x (List.mem_cons_self x xs)),
      ih (fun u hu => ha u (List.mem_cons_of_mem x hu))]
    ring

theorem sum_map_ite_id (l : List User) (a : Nat) (c : ℚ)
    (hnd : (l.map User.id).Nodup) (ha : a ∈ l.map User.id) :
    (l.map (fun u => if u.id = a then c else 0)).sum = c := by
  induction l with
  | nil => simp at ha
  | cons x xs ih =>
    simp only [List.map_cons, List.nodup_cons] at hnd
    simp only [List.map_cons, List.mem_cons] at ha
    simp only [List.map_cons, List.sum_cons]
    by_cases h : x.id = a
    · rw [if_pos h, sum_map_ite_id_zero xs a c ?_]
      · ring
      · intro u hu hua
        have hm : u.id ∈ xs.map User.id := List.mem_map_of_mem User.id hu
        rw [hua, ← h] at hm
        exact hnd.1 hm
    · rw [if_neg h]
      rcases ha with h1 | h2
      · exact absurd h1.symm h
      · rw [ih hnd.2 h2]
        ring

/-- C5: a transfer either appends both the `transfer_out` entry on the
sender and the `transfer_in` entry on the recipient or (on any failure)
leaves the state unchanged, and the total system balance — the sum of every
registered account's latest balance — is unchanged by the call in either
case.  The sender is assumed registered and account ids distinct (database
primary keys). -/
theorem c5_transfer_atomic_and_balance_preserving (s : DBState) (uid : Nat)
    (em : String) (amt : ℚ)
    (hnd : (s.users.map User.id).Nodup) (hu : uid ∈ s.users.map User.id) :
    totalBalance (runOp s (transfer s uid em amt)) = totalBalance s ∧
    ((∃ r s2, s.users.find? (fun u => u.email == em) = some r ∧
        transfer s uid em amt = .ok s2 ∧
        s2.txs = s.txs ++
          [⟨uid, .transfer_out, -amt, latestBalance uid s.txs,
             latestBalance uid s.txs - amt⟩,
           ⟨r.id, .transfer_in, amt, latestBalance r.id s.txs,
             latestBalance r.id s.txs + amt⟩]) ∨
      (∃ e2, transfer s uid em amt = .error e2 ∧
        runOp s (transfer s uid em amt) = s)) := by
  by_cases h0 : amt ≤ 0
  · have ht : transfer s uid em amt = .error .InvalidAmount := by
      unfold transfer
      rw [if_pos h0]
    rw [ht]
    exact ⟨rfl, .inr ⟨_, rfl, rfl⟩⟩
  · cases hfind : s.users.find? (fun u => u.email == em) with
    | none =>
      have ht : transfer s uid em amt = .error .RecipientNotFound := by
        unfold transfer
        rw [if_neg h0]
        simp only [hfind]
      rw [ht]
      exact ⟨rfl, .inr ⟨_, rfl, rfl⟩⟩
    | some r =>
      by_cases hrid : r.id = uid
      · have ht : transfer s uid em amt = .error .SameAccount := by
          unfold transfer
          rw [if_neg h0]
          simp only [hfind]
          rw [if_pos (by simp only [beq_iff_eq]; exact hrid)]
        rw [ht]
        exact ⟨rfl, .inr ⟨_, rfl, rfl⟩⟩
      · by_cases hbal : latestBalance uid s.txs < amt
        · have ht : transfer s uid em amt = .error .InsufficientFunds := by
            unfold transfer
            rw [if_neg h0]
            simp only [hfind]
            rw [if_neg (by simp only [beq_iff_eq]; exact hrid), if_pos hbal]
          rw [ht]
          exact ⟨rfl, .inr ⟨_, rfl, rfl⟩⟩
        · -- success case
          have hout : (⟨uid, .transfer_out, -amt, latestBalance uid s.txs,
              latestBalance uid s.txs - amt⟩ : LedgerEntry).user_id = uid := rfl
          have hrb : latestBalance r.id (s.txs ++
              [⟨uid, .transfer_out, -amt, latestBalance uid s.txs,
                latestBalance uid s.txs - amt⟩]) = latestBalance r.id s.txs := by
            rw [latestBalance_append]
            exact if_neg (fun hh => hrid hh.symm)
          have ht : transfer s uid em amt = .ok { s with
              txs := (s.txs ++
                [⟨uid, .transfer_out, -amt, latestBalance uid s.txs,
                  latestBalance uid s.txs - amt⟩]) ++
                [⟨r.id, .transfer_in, amt, latestBalance r.id s.txs,
                  latestBalance r.id s.txs + amt⟩] } := by
            unfold transfer
            rw [if_neg h0]
            simp only [hfind]
            rw [if_neg (by simp only [beq_iff_eq]; exact hrid), if_neg hbal]
            rw [hrb]
          have hr_mem : r.id ∈ s.users.map User.id :=
            List.mem_map_of_mem User.id (List.mem_of_find?_eq_some hfind)
          constructor
          · -- total balance preserved
            rw [ht]
            show totalBalance _ = totalBalance s
            unfold totalBalance
            have hpt : ∀ u ∈ s.users,
                latestBalance u.id ((s.txs ++
                  [⟨uid, .transfer_out, -amt, latestBalance uid s.txs,
                    latestBalance uid s.txs - amt⟩]) ++
                  [⟨r.id, .transfer_in, amt, latestBalance r.id s.txs,
                    latestBalance r.id s.txs + amt⟩]) =
                latestBalance u.id s.txs +
                  ((if u.id = r.id then amt else 0) +
                   (if u.id = uid then -amt else 0)) := by
              intro u _
              rw [latestBalance_append, latestBalance_append]
              by_cases h1 : u.id = r.id
              · rw [if_pos h1.symm, if_pos h1,
                  if_neg (fun hh : u.id = uid => hrid (h1 ▸ hh))]
                rw [h1]
                ring
              · rw [if_neg (fun hh : r.id = u.id => h1 hh.symm), if_neg h1]
                by_cases h2 : u.id = uid
                · rw [if_pos h2.symm, if_pos h2, h2]
                  ring
                · rw [if_neg (fun hh : uid = u.id => h2 hh.symm), if_neg h2]
                  ring
            calc (s.users.map (fun u => latestBalance u.id ((s.txs ++
                    [⟨uid, .transfer_out, -amt, latestBalance uid s.txs,
                      latestBalance uid s.txs - amt⟩]) ++
                    [⟨r.id, .transfer_in, amt, latestBalance r.id s.txs,
                      latestBalance r.id s.txs + amt⟩]))).sum
                = (s.users.map (fun u => latestBalance u.id s.txs +
                    ((if u.id = r.id then amt else 0) +
                     (if u.id = uid then -amt else 0)))).sum := by
                  exact congrArg List.sum (List.map_congr_left hpt)
              _ = (s.users.map (fun u => latestBalance u.id s.txs)).sum +
                    ((s.users.map (fun u => if u.id = r.id then amt else 0)).sum +
                     (s.users.map (fun u => if u.id = uid then -amt else 0)).sum) := by
                  rw [sum_map_add_q s.users
                    (fun u => latestBalance u.id s.txs)
                    (fun u => (if u.id = r.id then amt else 0) +
                      (if u.id = uid then -amt else 0)),
                    sum_map_add_q s.users
                    (fun u => if u.id = r.id then amt else 0)
                    (fun u => if u.id = uid then -amt else 0)]
              _ = (s.users.map (fun u => latestBalance u.id s.txs)).sum := by
                  rw [sum_map_ite_id s.users r.id amt hnd hr_mem,
                    sum_map_ite_id s.users uid (-amt) hnd hu]
                  ring
          · refine .inl ⟨r, _, rfl, ht, ?_⟩
            simp

/-- Two registered users; user 1 holds 100 from a deposit. -/
def demoT : DBState :=
  ⟨[⟨1, "alice"⟩, ⟨2, "bob"⟩], [⟨1, .deposit, 100, 0, 100⟩], [], [], [], []⟩

/-- Witness for C5: on the concrete state `demoT`, a transfer of 30 from
user 1 to "bob" satisfies the atomicity-and-preservation conclusion. -/
theorem c5_witness :
    totalBalance (runOp demoT (transfer demoT 1 "bob" 30)) =
      totalBalance demoT ∧
    ((∃ r s2, demoT.users.find? (fun u => u.email == "bob") = some r ∧
        transfer demoT 1 "bob" 30 = .ok s2 ∧
        s2.txs = demoT.txs ++
          [⟨1, .transfer_out, -30, latestBalance 1 demoT.txs,
             latestBalance 1 demoT.txs - 30⟩,
           ⟨r.id, .transfer_in, 30, latestBalance r.id demoT.txs,
             latestBalance r.id demoT.txs + 30⟩]) ∨
      (∃ e2, transfer demoT 1 "bob" 30 = .error e2 ∧
        runOp demoT (transfer demoT 1 "bob" 30) = demoT)) :=
  c5_transfer_atomic_and_balance_preserving demoT 1 "bob" 30
    (by decide) (by decide)

theorem pyTrunc_mono {x y : ℚ} (h : x ≤ y) : pyTrunc x ≤ pyTrunc y := by
  unfold pyTrunc
  by_cases hx : 0 ≤ x
  · rw [if_pos hx, if_pos (le_trans hx h)]
    exact Int.floor_le_floor h
  · rw [if_neg hx]
    by_cases hy : 0 ≤ y
    · rw [if_pos hy]
      have h1 : ⌈x⌉ ≤ 0 :=
        Int.ceil_le.mpr (by exact_mod_cast le_of_lt (lt_of_not_ge hx))
      have h2 : (0 : Int) ≤ ⌊y⌋ := Int.floor_nonneg.mpr hy
      omega
    · rw [if_neg hy]
      exact Int.ceil_le_ceil h

theorem one_le_daysActive (x : ℚ) : 1 ≤ daysActive x := by
  unfold daysActive
  have h : (1 : Int) ≤ max 1 (pyTrunc x) := le_max_left _ _
  omega

theorem daysActive_mono {x y : ℚ} (h : x ≤ y) : daysActive x ≤ daysActive y := by
  unfold daysActive
  have h2 : max 1 (pyTrunc x) ≤ max 1 (pyTrunc y) :=
    max_le_max le_rfl (pyTrunc_mono h)
  omega

theorem daysActive_lt_add_one {x : ℚ} (hx : 0 ≤ x) :
    x < (daysActive x : ℚ) + 1 := by
  unfold daysActive pyTrunc
  rw [if_pos hx]
  have h1 : (0 : Int) ≤ ⌊x⌋ := Int.floor_nonneg.mpr hx
  have h2 : ((max 1 ⌊x⌋).toNat : Int) = max 1 ⌊x⌋ :=
    Int.toNat_of_nonneg (by omega)
  have h3 : x < (⌊x⌋ : ℚ) + 1 := Int.lt_floor_add_one x
  have h4 : ((⌊x⌋ : Int) : ℚ) ≤ (((max 1 ⌊x⌋).toNat : ℕ) : ℚ) := by
    have h5 : (⌊x⌋ : Int) ≤ ((max 1 ⌊x⌋).toNat : Int) := by omega
    exact_mod_cast h5
  linarith

theorem dailyReturns_sum_succ (rate : ℚ) (n : Nat) (rand : Nat → ℚ × ℚ) :
    (dailyReturns rate (n + 1) rand).sum =
      (dailyReturns rate n rand).sum +
        rate * volatilityFactor (rand n).1 * regimeFactor (rand n).2 := by
  unfold dailyReturns
  rw [List.range_succ]
  simp

theorem dailyReturns_sum_le (rate : ℚ) (rand : Nat → ℚ × ℚ)
    (hterm : ∀ d, 0 ≤ rate * volatilityFactor (rand d).1 *
      regimeFactor (rand d).2)
    {n1 n2 : Nat} (h : n1 ≤ n2) :
    (dailyReturns rate n1 rand).sum ≤ (dailyReturns rate n2 rand).sum := by
  induction n2 with
  | zero =>
    have h0 : n1 = 0 := Nat.le_zero.mp h
    rw [h0]
  | succ m ih =>
    rcases Nat.lt_or_ge n1 (m + 1) with h1 | h2
    · have hle := ih (Nat.lt_succ_iff.mp h1)
      rw [dailyReturns_sum_succ]
      have ht := hterm m
      linarith
    · rw [le_antisymm h h2]

theorem dailyReturns_sum_lower (rate : ℚ) (rand : Nat → ℚ × ℚ) (c : ℚ)
    (hterm : ∀ d, c ≤ rate * volatilityFactor (rand d).1 *
      regimeFactor (rand d).2)
    (n : Nat) : (n : ℚ) * c ≤ (dailyReturns rate n rand).sum := by
  induction n with
  | zero => simp [dailyReturns]
  | succ m ih =>
    rw [dailyReturns_sum_succ]
    have ht := hterm m
    push_cast
    linarith

theorem volatilityFactor_ge {r : ℚ} (hr : 0 ≤ r) :
    4 / 5 ≤ volatilityFactor r := by
  unfold volatilityFactor
  nlinarith

theorem regimeFactor_ge (r : ℚ) : 7 / 10 ≤ regimeFactor r := by
  unfold regimeFactor
  split_ifs <;> norm_num

theorem accrual_term_lower (rate : ℚ) (hrate : 1 / 400 ≤ rate) {r1 r2 : ℚ}
    (hr1 : 0 ≤ r1) :
    7 / 5000 ≤ rate * volatilityFactor r1 * regimeFactor r2 := by
  have hv := volatilityFactor_ge hr1
  have hg := regimeFactor_ge r2
  have hrate0 : (0 : ℚ) ≤ rate := le_trans (by norm_num) hrate
  have h1 : (1 / 400 : ℚ) * (4 / 5) ≤ rate * volatilityFactor r1 :=
    mul_le_mul hrate hv (by norm_num) hrate0
  have h2 : ((1 / 400 : ℚ) * (4 / 5)) * (7 / 10) ≤
      (rate * volatilityFactor r1) * regimeFactor r2 :=
    mul_le_mul h1 hg (by norm_num) (le_trans (by norm_num) h1)
  calc (7 / 5000 : ℚ) = (1 / 400) * (4 / 5) * (7 / 10) := by norm_num
    _ ≤ rate * volatilityFactor r1 * regimeFactor r2 := h2

/-- C7: for a fixed subscription (principal, rate and per-day variance
draws fixed), the accrual engine's earnings are non-decreasing in
`days_elapsed`, and satisfy the floor
`earnings ≥ invested_amount * 0.0001 * days_elapsed` for all
`days_elapsed ≥ 0`.  The hypotheses reflect the system: principal is
non-negative, every seeded strategy has `expected_roi ≥ 0.25` percent (daily
rate ≥ 1/400), and the variance draws come from `random.random() ∈ [0, 1)`. -/
theorem c7_accrual_monotone_and_floor (invested rate x y : ℚ)
    (rand : Nat → ℚ × ℚ)
    (hinv : 0 ≤ invested) (hrate : 1 / 400 ≤ rate)
    (hrand : ∀ d, 0 ≤ (rand d).1)
    (hxy : x ≤ y) (hx : 0 ≤ x) :
    unsubEarnings invested rate x rand ≤ unsubEarnings invested rate y rand ∧
    invested * (1 / 10000) * x ≤ unsubEarnings invested rate x rand := by
  have hterm : ∀ d, 7 / 5000 ≤ rate * volatilityFactor (rand d).1 *
      regimeFactor (rand d).2 :=
    fun d => accrual_term_lower rate hrate (hrand d)
  have hterm0 : ∀ d, 0 ≤ rate * volatilityFactor (rand d).1 *
      regimeFactor (rand d).2 :=
    fun d => le_trans (by norm_num) (hterm d)
  constructor
  · have hn : daysActive x ≤ daysActive y := daysActive_mono hxy
    simp only [unsubEarnings, strategyTotalReturn]
    apply max_le_max
    · exact mul_le_mul_of_nonneg_left
        (dailyReturns_sum_le rate rand hterm0 hn) hinv
    · exact mul_le_mul_of_nonneg_left (by exact_mod_cast hn) (by positivity)
  · have h1n : 1 ≤ daysActive x := one_le_daysActive x
    have hxlt : x < (daysActive x : ℚ) + 1 := daysActive_lt_add_one hx
    have hn1 : (1 : ℚ) ≤ (daysActive x : ℚ) := by exact_mod_cast h1n
    have hx14 : x ≤ 14 * (daysActive x : ℚ) := by linarith
    have hsum : (daysActive x : ℚ) * (7 / 5000) ≤
        (dailyReturns rate (daysActive x) rand).sum :=
      dailyReturns_sum_lower rate rand (7 / 5000) hterm (daysActive x)
    have hchain : invested * (1 / 10000) * x ≤
        invested * (dailyReturns rate (daysActive x) rand).sum := by
      calc invested * (1 / 10000) * x
          = invested * ((1 / 10000) * x) := by ring
        _ ≤ invested * ((1 / 10000) * (14 * (daysActive x : ℚ))) :=
            mul_le_mul_of_nonneg_left
              (mul_le_mul_of_nonneg_left hx14 (by norm_num)) hinv
        _ = invested * ((daysActive x : ℚ) * (7 / 5000)) := by ring
        _ ≤ invested * (dailyReturns rate (daysActive x) rand).sum :=
            mul_le_mul_of_nonneg_left hsum hinv
    simp only [unsubEarnings, strategyTotalReturn]
    exact le_trans hchain (le_max_left _ _)

/-- Witness for C7: principal 1000 at the minimum seeded rate 0.25 percent
per day with neutral variance draws, comparing elapsed times 1/2 and 3. -/
theorem c7_witness :
    unsubEarnings 1000 (1 / 400) (1 / 2) detRand ≤
      unsubEarnings 1000 (1 / 400) 3 detRand ∧
    1000 * (1 / 10000) * (1 / 2) ≤
      unsubEarnings 1000 (1 / 400) (1 / 2) detRand :=
  c7_accrual_monotone_and_floor 1000 (1 / 400) (1 / 2) 3 detRand
    (by norm_num) (by norm_num) (fun d => by norm_num [detRand])
    (by norm_num) (by norm_num)

theorem entriesOf_append (uid : Nat) (txs : List LedgerEntry)
    (e : LedgerEntry) :
    entriesOf uid (txs ++ [e]) =
      entriesOf uid txs ++ (if e.user_id = uid then [e] else []) := by
  unfold entriesOf
  rw [List.filter_append]
  by_cases h : e.user_id = uid
  · have hb : (e.user_id == uid) = true := by simp [h]
    simp [List.filter, hb, h]
  · have hb : (e.user_id == uid) = false := by simp [h]
    simp [List.filter, hb, h]

theorem chainAmendedFromB_append (p : ℚ) (l : List LedgerEntry)
    (e : LedgerEntry) (hl : chainAmendedFromB p l = true)
    (hbb : e.balance_before =
      ((l.getLast?).map LedgerEntry.balance_after).getD p)
    (heq : e.balance_after = e.balance_before + signedAmount e) :
    chainAmendedFromB p (l ++ [e]) = true := by
  induction l generalizing p with
  | nil =>
    simp only [List.getLast?_nil, Option.map_none', Option.getD_none] at hbb
    simp only [List.nil_append, chainAmendedFromB, Bool.and_eq_true,
      decide_eq_true_eq]
    exact ⟨⟨hbb, heq⟩, trivial⟩
  | cons x xs ih =>
    simp only [chainAmendedFromB, Bool.and_eq_true] at hl
    obtain ⟨h12, h3⟩ := hl
    simp only [List.cons_append, chainAmendedFromB, Bool.and_eq_true]
    refine ⟨h12, ih x.balance_after h3 ?_⟩
    cases xs with
    | nil => simpa using hbb
    | cons y ys => simpa using hbb

theorem ledgerChainAmendedOk_append (txs : List LedgerEntry)
    (e : LedgerEntry) (hg : goodAppend txs e)
    (h : ∀ u, ledgerChainAmendedOk u txs = true) :
    ∀ u, ledgerChainAmendedOk u (txs ++ [e]) = true := by
  intro u
  unfold ledgerChainAmendedOk
  rw [entriesOf_append]
  by_cases hu : e.user_id = u
  · rw [if_pos hu]
    refine chainAmendedFromB_append 0 _ e (h u) ?_ ?_
    · have h1 := hg.1
      rw [hu] at h1
      exact h1
    · have h2 := hg.2
      linarith
  · rw [if_neg hu, List.append_nil]
    exact h u

theorem firstBalanceOk_append (txs : List LedgerEntry) (e : LedgerEntry)
    (hg : goodAppend txs e) (h : ∀ u, firstBalanceOk u txs = true) :
    ∀ u, firstBalanceOk u (txs ++ [e]) = true := by
  intro u
  unfold firstBalanceOk
  rw [entriesOf_append]
  by_cases hu : e.user_id = u
  · rw [if_pos hu]
    cases hl : entriesOf u txs with
    | nil =>
      have h1 := hg.1
      rw [hu] at h1
      unfold latestBalance at h1
      have hl2 : (txs.filter (fun e2 => e2.user_id == u)) = [] := hl
      rw [hl2] at h1
      simp at h1
      simp [h1]
    | cons x xs =>
      have hx := h u
      unfold firstBalanceOk at hx
      rw [hl] at hx
      simpa using hx
  · rw [if_neg hu, List.append_nil]
    exact h u

theorem replayOk_append (txs : List LedgerEntry) (e : LedgerEntry)
    (hg : goodAppend txs e) (h : ∀ u, replayOk u txs = true) :
    ∀ u, replayOk u (txs ++ [e]) = true := by
  have hfb : ∀ u, firstBalanceOk u txs = true := by
    intro u
    have hu := h u
    unfold replayOk at hu
    simp only [Bool.and_eq_true] at hu
    exact hu.2
  intro u
  unfold replayOk
  simp only [Bool.and_eq_true]
  refine ⟨?_, firstBalanceOk_append txs e hg hfb u⟩
  have hu := h u
  unfold replayOk at hu
  simp only [Bool.and_eq_true, decide_eq_true_eq] at hu
  obtain ⟨hsum, _⟩ := hu
  simp only [decide_eq_true_eq]
  rw [entriesOf_append]
  by_cases huid : e.user_id = u
  · rw [if_pos huid]
    rw [List.map_append, List.sum_append]
    simp only [List.map_cons, List.map_nil, List.sum_cons, List.sum_nil,
      add_zero]
    rw [latestBalance_append, if_pos huid]
    have h1 := hg.1
    have h2 := hg.2
    rw [huid] at h1
    rw [hsum]
    linarith
  · rw [if_neg huid, List.append_nil]
    rw [latestBalance_append, if_neg huid]
    exact hsum

theorem placeTrade_never_commits (s : DBState) (uid : Nat) (asset : String)
    (sd : Side) (sz px : ℚ) :
    runOp s (placeTrade s uid asset sd sz px) = s := by
  unfold placeTrade
  cases sd <;>
    (split
     · rfl
     · dsimp only
       split <;> rfl)

theorem requestWithdraw_never_commits (s : DBState) (uid : Nat) (amt : ℚ) :
    runOp s (requestWithdraw s uid amt) = s := by
  unfold requestWithdraw
  split
  · rfl
  · dsimp only
    split <;> rfl

theorem deposit_txs (s : DBState) (uid : Nat) (amt : ℚ) :
    (runOp s (deposit s uid amt)).txs = s.txs ∨
    ∃ e, goodAppend s.txs e ∧
      (runOp s (deposit s uid amt)).txs = s.txs ++ [e] := by
  by_cases h : amt ≤ 0
  · have ht : deposit s uid amt = .error .InvalidAmount := by
      unfold deposit
      rw [if_pos h]
    rw [ht]
    exact .inl rfl
  · have ht : deposit s uid amt = .ok { s with txs := s.txs ++
        [⟨uid, .deposit, amt, latestBalance uid s.txs,
          latestBalance uid s.txs + amt⟩] } := by
      unfold deposit
      rw [if_neg h]
    rw [ht]
    refine .inr ⟨⟨uid, .deposit, amt, latestBalance uid s.txs,
      latestBalance uid s.txs + amt⟩, ⟨rfl, ?_⟩, rfl⟩
    simp only [signedAmount]
    ring

theorem transfer_txs (s : DBState) (uid : Nat) (em : String) (amt : ℚ) :
    (runOp s (transfer s uid em amt)).txs = s.txs ∨
    ∃ e1 e2, goodAppend s.txs e1 ∧ goodAppend (s.txs ++ [e1]) e2 ∧
      (runOp s (transfer s uid em amt)).txs = (s.txs ++ [e1]) ++ [e2] := by
  by_cases h0 : amt ≤ 0
  · have ht : transfer s uid em amt = .error .InvalidAmount := by
      unfold transfer
      rw [if_pos h0]
    rw [ht]
    exact .inl rfl
  · cases hfind : s.users.find? (fun u => u.email == em) with
    | none =>
      have ht : transfer s uid em amt = .error .RecipientNotFound := by
        unfold transfer
        rw [if_neg h0]
        simp only [hfind]
      rw [ht]
      exact .inl rfl
    | some r =>
      by_cases hrid : r.id = uid
      · have ht : transfer s uid em amt = .error .SameAccount := by
          unfold transfer
          rw [if_neg h0]
          simp only [hfind]
          rw [if_pos (by simp only [beq_iff_eq]; exact hrid)]
        rw [ht]
        exact .inl rfl
      · by_cases hbal : latestBalance uid s.txs < amt
        · have ht : transfer s uid em amt = .error .InsufficientFunds := by
            unfold transfer
            rw [if_neg h0]
            simp only [hfind]
            rw [if_neg (by simp only [beq_iff_eq]; exact hrid), if_pos hbal]
          rw [ht]
          exact .inl rfl
        · have ht : transfer s uid em amt = .ok { s with txs :=
              (s.txs ++ [⟨uid, .transfer_out, -amt, latestBalance uid s.txs,
                latestBalance uid s.txs - amt⟩]) ++
              [⟨r.id, .transfer_in, amt,
                latestBalance r.id (s.txs ++
                  [⟨uid, .transfer_out, -amt, latestBalance uid s.txs,
                    latestBalance uid s.txs - amt⟩]),
                latestBalance r.id (s.txs ++
                  [⟨uid, .transfer_out, -amt, latestBalance uid s.txs,
                    latestBalance uid s.txs - amt⟩]) + amt⟩] } := by
            unfold transfer
            rw [if_neg h0]
            simp only [hfind]
            rw [if_neg (by simp only [beq_iff_eq]; exact hrid), if_neg hbal]
          rw [ht]
          refine .inr ⟨_, _, ⟨rfl, ?_⟩, ⟨rfl, ?_⟩, rfl⟩
          · simp only [signedAmount]
            ring
          · simp only [signedAmount]
            ring

theorem updateUserBalance_txs (s : DBState) (uid : Nat) (target : ℚ) :
    (runOp s (updateUserBalance s uid target)).txs = s.txs ∨
    ∃ e, goodAppend s.txs e ∧
      (runOp s (updateUserBalance s uid target)).txs = s.txs ++ [e] := by
  by_cases h0 : target < 0
  · have ht : updateUserBalance s uid target = .error .NegativeTarget := by
      unfold updateUserBalance
      rw [if_pos h0]
    rw [ht]
    exact .inl rfl
  · by_cases hz : target - latestBalance uid s.txs = 0
    · have ht : updateUserBalance s uid target = .ok s := by
        unfold updateUserBalance
        rw [if_neg h0, if_pos hz]
      rw [ht]
      exact .inl rfl
    · by_cases hpos : 0 < target - latestBalance uid s.txs
      · have ht : updateUserBalance s uid target = .ok { s with txs :=
            s.txs ++ [⟨uid, .admin_adjustment_positive,
              |target - latestBalance uid s.txs|, latestBalance uid s.txs,
              target⟩] } := by
          unfold updateUserBalance
          rw [if_neg h0, if_neg hz, if_pos hpos]
        rw [ht]
        refine .inr ⟨_, ⟨rfl, ?_⟩, rfl⟩
        simp only [signedAmount]
        rw [abs_of_pos hpos]
      · have ht : updateUserBalance s uid target = .ok { s with txs :=
            s.txs ++ [⟨uid, .admin_adjustment_negative,
              |target - latestBalance uid s.txs|, latestBalance uid s.txs,
              target⟩] } := by
          unfold updateUserBalance
          rw [if_neg h0, if_neg hz, if_neg hpos]
        rw [ht]
        refine .inr ⟨_, ⟨rfl, ?_⟩, rfl⟩
        simp only [signedAmount]
        have hneg : target - latestBalance uid s.txs < 0 :=
          lt_of_le_of_ne (not_lt.mp hpos) hz
        rw [abs_of_neg hneg]
        ring

theorem subscribeToStrategy_txs (s : DBState) (uid sid : Nat)
    (inv now : ℚ) :
    (runOp s (subscribeToStrategy s uid sid inv now)).txs = s.txs ∨
    ∃ e, goodAppend s.txs e ∧
      (runOp s (subscribeToStrategy s uid sid inv now)).txs =
        s.txs ++ [e] := by
  by_cases h0 : inv ≤ 0
  · have ht : subscribeToStrategy s uid sid inv now =
        .error .InvalidAmount := by
      unfold subscribeToStrategy
      rw [if_pos h0]
    rw [ht]
    exact .inl rfl
  · cases hfind : s.strategies.find?
        (fun st => st.id == sid && st.is_active) with
    | none =>
      have ht : subscribeToStrategy s uid sid inv now =
          .error .StrategyNotFound := by
        unfold subscribeToStrategy
        rw [if_neg h0]
        simp only [hfind]
      rw [ht]
      exact .inl rfl
    | some strat =>
      by_cases hmin : inv < strat.min_investment
      · have ht : subscribeToStrategy s uid sid inv now =
            .error .BelowMinInvestment := by
          unfold subscribeToStrategy
          rw [if_neg h0]
          simp only [hfind]
          rw [if_pos hmin]
        rw [ht]
        exact .inl rfl
      · by_cases hmax : (match strat.max_investment with
            | none => false
            | some m => !(m == 0) && decide (m < inv)) = true
        · have ht : subscribeToStrategy s uid sid inv now =
              .error .AboveMaxInvestment := by
            unfold subscribeToStrategy
            rw [if_neg h0]
            simp only [hfind]
            rw [if_neg hmin, if_pos hmax]
          rw [ht]
          exact .inl rfl
        · by_cases hbal : latestBalance uid s.txs < inv
          · have ht : subscribeToStrategy s uid sid inv now =
                .error .InsufficientFunds := by
              unfold subscribeToStrategy
              rw [if_neg h0]
              simp only [hfind]
              rw [if_neg hmin, if_neg hmax, if_pos hbal]
            rw [ht]
            exact .inl rfl
          · by_cases hdup : (s.subs.any (fun s0 =>
                s0.user_id == uid && s0.strategy_id == sid)) = true
            · have ht : subscribeToStrategy s uid sid inv now =
                  .error .UniqueViolation := by
                unfold subscribeToStrategy
                rw [if_neg h0]
                simp only [hfind]
                rw [if_neg hmin, if_neg hmax, if_neg hbal, if_pos hdup]
              rw [ht]
              exact .inl rfl
            · have ht : subscribeToStrategy s uid sid inv now = .ok { s with
                  subs := s.subs ++
                    [⟨s.subs.length + 1, uid, sid, inv, true, now⟩],
                  txs := s.txs ++ [⟨uid, .strategy_investment, -inv,
                    latestBalance uid s.txs,
                    latestBalance uid s.txs - inv⟩] } := by
                unfold subscribeToStrategy
                rw [if_neg h0]
                simp only [hfind]
                rw [if_neg hmin, if_neg hmax, if_neg hbal, if_neg hdup]
              rw [ht]
              refine .inr ⟨_, ⟨rfl, ?_⟩, rfl⟩
              simp only [signedAmount]
              ring

theorem unsubscribeFromStrategy_txs (s : DBState) (uid sid : Nat)
    (now : ℚ) (rand : Nat → ℚ × ℚ) :
    (runOp s (unsubscribeFromStrategy s uid sid now rand)).txs = s.txs ∨
    ∃ e, goodAppend s.txs e ∧
      (runOp s (unsubscribeFromStrategy s uid sid now rand)).txs =
        s.txs ++ [e] := by
  cases hf1 : s.subs.find? (fun ss =>
      ss.user_id == uid && ss.strategy_id == sid && ss.is_active) with
  | none =>
    have ht : unsubscribeFromStrategy s uid sid now rand =
        .error .NoActiveSubscription := by
      unfold unsubscribeFromStrategy
      simp only [hf1]
    rw [ht]
    exact .inl rfl
  | some sub =>
    cases hf2 : s.strategies.find? (fun st => st.id == sub.strategy_id) with
    | none =>
      have ht : unsubscribeFromStrategy s uid sid now rand =
          .error .NoActiveSubscription := by
        unfold unsubscribeFromStrategy
        simp only [hf1, hf2]
      rw [ht]
      exact .inl rfl
    | some strat =>
      have ht : unsubscribeFromStrategy s uid sid now rand = .ok { s with
          subs := s.subs.map (fun s0 =>
            if s0.id == sub.id then { s0 with is_active := false } else s0),
          txs := s.txs ++ [⟨uid, .strategy_unsubscription,
            sub.invested_amount + unsubEarnings sub.invested_amount
              (strat.expected_roi / 100) ((now - sub.subscribed_at) / 86400)
              rand,
            latestBalance uid s.txs,
            latestBalance uid s.txs +
              (sub.invested_amount + unsubEarnings sub.invested_amount
                (strat.expected_roi / 100)
                ((now - sub.subscribed_at) / 86400) rand)⟩] } := by
        unfold unsubscribeFromStrategy
        simp only [hf1, hf2]
      rw [ht]
      refine .inr ⟨_, ⟨rfl, ?_⟩, rfl⟩
      simp only [signedAmount]
      ring

/-- C1 (amended): the per-entry rule and the chain hold for every
balance-affecting operation this source can actually complete.  Amounts are
stored signed for deposit, transfer, trade and strategy entries, while
admin adjustment entries store the magnitude with the direction in the
transaction type, so each entry satisfies
`balance_after = balance_before + signedAmount`; and each entry's
`balance_before` is the previous entry's `balance_after` (0 for the first),
because every committing handler reads the latest balance inside its own
transaction.  Trade settlement and withdrawal request never commit
anything — their handlers always raise and roll back — so the
withdrawal-settlement arithmetic, which would break the chain, is
unreachable through this source. -/
theorem c1_amended_chain_invariant_preserved (s : DBState) (uid sid : Nat)
    (em asset : String) (amt target inv now sz px : ℚ) (sd : Side)
    (rand : Nat → ℚ × ℚ)
    (hok : ∀ u, ledgerChainAmendedOk u s.txs = true) :
    (∀ u, ledgerChainAmendedOk u (runOp s (deposit s uid amt)).txs = true) ∧
    (∀ u, ledgerChainAmendedOk u
      (runOp s (transfer s uid em amt)).txs = true) ∧
    (∀ u, ledgerChainAmendedOk u
      (runOp s (updateUserBalance s uid target)).txs = true) ∧
    (∀ u, ledgerChainAmendedOk u
      (runOp s (subscribeToStrategy s uid sid inv now)).txs = true) ∧
    (∀ u, ledgerChainAmendedOk u
      (runOp s (unsubscribeFromStrategy s uid sid now rand)).txs = true) ∧
    runOp s (placeTrade s uid asset sd sz px) = s ∧
    runOp s (requestWithdraw s uid amt) = s := by
  refine ⟨?_, ?_, ?_, ?_, ?_,
    placeTrade_never_commits s uid asset sd sz px,
    requestWithdraw_never_commits s uid amt⟩
  · rcases deposit_txs s uid amt with h | ⟨e, hg, h⟩
    · intro u
      rw [h]
      exact hok u
    · intro u
      rw [h]
      exact ledgerChainAmendedOk_append s.txs e hg hok u
  · rcases transfer_txs s uid em amt with h | ⟨e1, e2, hg1, hg2, h⟩
    · intro u
      rw [h]
      exact hok u
    · intro u
      rw [h]
      exact ledgerChainAmendedOk_append _ e2 hg2
        (ledgerChainAmendedOk_append s.txs e1 hg1 hok) u
  · rcases updateUserBalance_txs s uid target with h | ⟨e, hg, h⟩
    · intro u
      rw [h]
      exact hok u
    · intro u
      rw [h]
      exact ledgerChainAmendedOk_append s.txs e hg hok u
  · rcases subscribeToStrategy_txs s uid sid inv now with h | ⟨e, hg, h⟩
    · intro u
      rw [h]
      exact hok u
    · intro u
      rw [h]
      exact ledgerChainAmendedOk_append s.txs e hg hok u
  · rcases unsubscribeFromStrategy_txs s uid sid now rand with
      h | ⟨e, hg, h⟩
    · intro u
      rw [h]
      exact hok u
    · intro u
      rw [h]
      exact ledgerChainAmendedOk_append s.txs e hg hok u

/-- Witness for C1 (amended): one step of each operation from the empty
ledger. -/
theorem c1_amended_witness :
    (∀ u, ledgerChainAmendedOk u
      (runOp baseState (deposit baseState 1 1000)).txs = true) ∧
    (∀ u, ledgerChainAmendedOk u
      (runOp baseState (transfer baseState 1 "bob" 30)).txs = true) ∧
    (∀ u, ledgerChainAmendedOk u
      (runOp baseState (updateUserBalance baseState 1 600)).txs = true) ∧
    (∀ u, ledgerChainAmendedOk u
      (runOp baseState (subscribeToStrategy baseState 1 5 300 7777)).txs =
        true) ∧
    (∀ u, ledgerChainAmendedOk u
      (runOp baseState
        (unsubscribeFromStrategy baseState 1 5 7777 detRand)).txs = true) ∧
    runOp baseState (placeTrade baseState 1 "BTC" .buy (1 / 100) 45000) =
      baseState ∧
    runOp baseState (requestWithdraw baseState 1 1000) = baseState :=
  c1_amended_chain_invariant_preserved baseState 1 5 "bob" "BTC" 1000 600
    300 7777 (1 / 100) 45000 .buy detRand (fun _ => rfl)

/-- C2 (amended): replaying an account's history with the per-kind signed
amounts (admin adjustment magnitudes carry their sign in the transaction
type) reproduces the latest balance, and the first entry's `balance_before`
is 0 — preserved by every operation this source can actually complete;
trade settlement and withdrawal request commit nothing. -/
theorem c2_amended_replay_preserved (s : DBState) (uid sid : Nat)
    (em asset : String) (amt target inv now sz px : ℚ) (sd : Side)
    (rand : Nat → ℚ × ℚ)
    (hok : ∀ u, replayOk u s.txs = true) :
    (∀ u, replayOk u (runOp s (deposit s uid amt)).txs = true) ∧
    (∀ u, replayOk u (runOp s (transfer s uid em amt)).txs = true) ∧
    (∀ u, replayOk u (runOp s (updateUserBalance s uid target)).txs =
      true) ∧
    (∀ u, replayOk u (runOp s (subscribeToStrategy s uid sid inv now)).txs =
      true) ∧
    (∀ u, replayOk u
      (runOp s (unsubscribeFromStrategy s uid sid now rand)).txs = true) ∧
    runOp s (placeTrade s uid asset sd sz px) = s ∧
    runOp s (requestWithdraw s uid amt) = s := by
  refine ⟨?_, ?_, ?_, ?_, ?_,
    placeTrade_never_commits s uid asset sd sz px,
    requestWithdraw_never_commits s uid amt⟩
  · rcases deposit_txs s uid amt with h | ⟨e, hg, h⟩
    · intro u
      rw [h]
      exact hok u
    · intro u
      rw [h]
      exact replayOk_append s.txs e hg hok u
  · rcases transfer_txs s uid em amt with h | ⟨e1, e2, hg1, hg2, h⟩
    · intro u
      rw [h]
      exact hok u
    · intro u
      rw [h]
      exact replayOk_append _ e2 hg2 (replayOk_append s.txs e1 hg1 hok) u
  · rcases updateUserBalance_txs s uid target with h | ⟨e, hg, h⟩
    · intro u
      rw [h]
      exact hok u
    · intro u
      rw [h]
      exact replayOk_append s.txs e hg hok u
  · rcases subscribeToStrategy_txs s uid sid inv now with h | ⟨e, hg, h⟩
    · intro u
      rw [h]
      exact hok u
    · intro u
      rw [h]
      exact replayOk_append s.txs e hg hok u
  · rcases unsubscribeFromStrategy_txs s uid sid now rand with
      h | ⟨e, hg, h⟩
    · intro u
      rw [h]
      exact hok u
    · intro u
      rw [h]
      exact replayOk_append s.txs e hg hok u

/-- Witness for C2 (amended): one step of each operation from the empty
ledger. -/
theorem c2_amended_witness :
    (∀ u, replayOk u
      (runOp baseState (deposit baseState 1 1000)).txs = true) ∧
    (∀ u, replayOk u
      (runOp baseState (transfer baseState 1 "bob" 30)).txs = true) ∧
    (∀ u, replayOk u
      (runOp baseState (updateUserBalance baseState 1 600)).txs = true) ∧
    (∀ u, replayOk u
      (runOp baseState (subscribeToStrategy baseState 1 5 300 7777)).txs =
        true) ∧
    (∀ u, replayOk u
      (runOp baseState
        (unsubscribeFromStrategy baseState 1 5 7777 detRand)).txs = true) ∧
    runOp baseState (placeTrade baseState 1 "BTC" .buy (1 / 100) 45000) =
      baseState ∧
    runOp baseState (requestWithdraw baseState 1 1000) = baseState :=
  c2_amended_replay_preserved baseState 1 5 "bob" "BTC" 1000 600 300 7777
    (1 / 100) 45000 .buy detRand (fun _ => rfl)

end TradeApp
